import Mathlib

/-!
# Verification of `intervals-mcp-server` strain/energy-balance tools

Shallow embedding of `src/intervals_mcp_server/tools/strain_pmc.py`
(`_calculate_strain_pmc`) and
`src/intervals_mcp_server/tools/energy_balance.py`
(`_calculate_energy_balance`), together with proofs about the claims of the
specification.

Modelling conventions:
* Python `datetime` values entering the day loop are modelled at calendar-day
  granularity by a `Date` structure `(y, m, d)`; `datetime` ordering is
  chronological, modelled through `toOrdinal` (a proleptic-Gregorian day
  count, ordering dates exactly as Python's `date.toordinal`).
* Python floats are modelled exactly: load aggregation over `ℚ`, the decay
  recurrence over `ℝ` (the decay factor involves `Real.exp`).
* The fallible steps of `_calculate_strain_pmc` (the integer division
  `-1 / ctl_days` raises `ZeroDivisionError` when a time constant is zero;
  slicing a `None` date with `[:10]` raises `TypeError`; `min()` over an
  empty key set and `datetime.fromisoformat` on a malformed string raise
  `ValueError`) are modelled with `Except Unit`.
* The loop's `current_date.strftime("%Y-%m-%d")` key is modelled by
  `strfDate`, whose year is rendered *without* zero padding, as
  CPython/glibc render `%Y` (`datetime(1,1,2)` formats as `"1-01-02"`);
  it coincides with the canonical zero-padded form exactly for years
  1000-9999.
-/

set_option maxHeartbeats 1000000
set_option maxRecDepth 4000

namespace IntervalsMcp

/-! ### Definitions -/

/-- Gregorian calendar date `y`-`m`-`d`. Models a Python `datetime` at day
granularity. -/
structure Date where
  y : Nat
  m : Nat
  d : Nat
deriving DecidableEq, Repr

/-- Gregorian leap-year test, as in Python's `datetime` calendar. -/
def isLeap (y : Nat) : Bool :=
  (y % 4 == 0 && !(y % 100 == 0)) || y % 400 == 0

/-- Number of days in month `m` (1-12) of a year with leap flag `L`. -/
def daysInMonthB (L : Bool) (m : Nat) : Nat :=
  match m with
  | 1 => 31
  | 2 => if L then 29 else 28
  | 3 => 31
  | 4 => 30
  | 5 => 31
  | 6 => 30
  | 7 => 31
  | 8 => 31
  | 9 => 30
  | 10 => 31
  | 11 => 30
  | 12 => 31
  | _ => 0

/-- A date is valid when it denotes an actual Gregorian calendar day with
year at least 1 (Python's `datetime.MINYEAR`). -/
def Date.valid (dt : Date) : Bool :=
  decide (1 ≤ dt.y ∧ 1 ≤ dt.m ∧ dt.m ≤ 12 ∧ 1 ≤ dt.d ∧
    dt.d ≤ daysInMonthB (isLeap dt.y) dt.m)

/-- Days in all years `1, …, y-1` (closed form of the Gregorian day count). -/
def daysBeforeYear (y : Nat) : Nat :=
  365 * (y - 1) + (y - 1) / 4 - (y - 1) / 100 + (y - 1) / 400

/-- Days in the months of a year (leap flag `L`) strictly before month `m`. -/
def daysBeforeMonth (L : Bool) (m : Nat) : Nat :=
  let c : Nat := if L then 1 else 0
  match m with
  | 1 => 0
  | 2 => 31
  | 3 => 59 + c
  | 4 => 90 + c
  | 5 => 120 + c
  | 6 => 151 + c
  | 7 => 181 + c
  | 8 => 212 + c
  | 9 => 243 + c
  | 10 => 273 + c
  | 11 => 304 + c
  | 12 => 334 + c
  | _ => 400

/-- Proleptic-Gregorian ordinal day number of a date (Python's
`date.toordinal`); it orders valid dates chronologically, which is how
Python compares the `datetime` values in the day loop. -/
def toOrdinal (dt : Date) : Nat :=
  daysBeforeYear dt.y + daysBeforeMonth (isLeap dt.y) dt.m + dt.d

/-- Calendar successor of a date; models `datetime + timedelta(days=1)`. -/
def nextDay (dt : Date) : Date :=
  if dt.d < daysInMonthB (isLeap dt.y) dt.m then ⟨dt.y, dt.m, dt.d + 1⟩
  else if dt.m < 12 then ⟨dt.y, dt.m + 1, 1⟩
  else ⟨dt.y + 1, 1, 1⟩

/-- Calendar predecessor of a date; models `datetime - timedelta(days=1)`. -/
def prevDay (dt : Date) : Date :=
  if 1 < dt.d then ⟨dt.y, dt.m, dt.d - 1⟩
  else if 1 < dt.m then ⟨dt.y, dt.m - 1, daysInMonthB (isLeap dt.y) (dt.m - 1)⟩
  else ⟨dt.y - 1, 12, 31⟩

/-- Subtraction of `n` days: `dt - timedelta(days=n)`. -/
def subDays (dt : Date) (n : Nat) : Date := Nat.iterate prevDay n dt

/-- Lexicographic (= chronological) strict order on date triples. -/
def Date.lexLt (a b : Date) : Prop :=
  a.y < b.y ∨ (a.y = b.y ∧ (a.m < b.m ∨ (a.m = b.m ∧ a.d < b.d)))

def digitVal (c : Char) : Nat := c.toNat - 48

def isDigitCh (c : Char) : Bool := decide (48 ≤ c.toNat ∧ c.toNat ≤ 57)

def digitCh (n : Nat) : Char := Char.ofNat (48 + n)

def fmtList (dt : Date) : List Char :=
  [digitCh (dt.y / 1000 % 10), digitCh (dt.y / 100 % 10), digitCh (dt.y / 10 % 10),
   digitCh (dt.y % 10), '-', digitCh (dt.m / 10 % 10), digitCh (dt.m % 10), '-',
   digitCh (dt.d / 10 % 10), digitCh (dt.d % 10)]

def formatDate (dt : Date) : String := ⟨fmtList dt⟩

def parseDateList : List Char → Option Date
  | [y1, y2, y3, y4, s1, m1, m2, s2, d1, d2] =>
    if s1 = '-' ∧ s2 = '-' ∧ isDigitCh y1 ∧ isDigitCh y2 ∧ isDigitCh y3 ∧
        isDigitCh y4 ∧ isDigitCh m1 ∧ isDigitCh m2 ∧ isDigitCh d1 ∧ isDigitCh d2 then
      if Date.valid ⟨1000 * digitVal y1 + 100 * digitVal y2 + 10 * digitVal y3 +
          digitVal y4, 10 * digitVal m1 + digitVal m2,
          10 * digitVal d1 + digitVal d2⟩ = true then
        some ⟨1000 * digitVal y1 + 100 * digitVal y2 + 10 * digitVal y3 +
          digitVal y4, 10 * digitVal m1 + digitVal m2,
          10 * digitVal d1 + digitVal d2⟩
      else none
    else none
  | _ => none

/-- Models `datetime.fromisoformat` on the canonical 10-character
`YYYY-MM-DD` shape (the shape the Intervals API and the aggregation keys of
well-formed activities take). Python 3.11+ `fromisoformat` also accepts
further ISO-8601 forms (`"20240103"`, `"2024-W01-1"`); those fall outside
the canonical shape assumed by `wellFormedDates` and are sent to `none`
here, which the theorems' hypotheses keep out of scope. -/
def parseDate (s : String) : Option Date := parseDateList s.data

/-- The year part of `strftime("%Y")` as CPython/glibc render it: decimal
digits with no zero padding (years below 1000 are shorter than four
characters). Python `datetime` years always lie in 1-9999, so the final
branch is only ever taken with at most four digits. -/
def strfYearChars (y : Nat) : List Char :=
  if y < 10 then [digitCh (y % 10)]
  else if y < 100 then [digitCh (y / 10 % 10), digitCh (y % 10)]
  else if y < 1000 then
    [digitCh (y / 100 % 10), digitCh (y / 10 % 10), digitCh (y % 10)]
  else
    [digitCh (y / 1000 % 10), digitCh (y / 100 % 10), digitCh (y / 10 % 10),
     digitCh (y % 10)]

/-- The characters of `strftime("%Y-%m-%d")`: unpadded year, two-digit
month and day. -/
def strfList (dt : Date) : List Char :=
  strfYearChars dt.y ++
    ['-', digitCh (dt.m / 10 % 10), digitCh (dt.m % 10), '-',
     digitCh (dt.d / 10 % 10), digitCh (dt.d % 10)]

/-- Models `current_date.strftime("%Y-%m-%d")`, the key the day loop looks
up in `daily_strain`. -/
def strfDate (dt : Date) : String := ⟨strfList dt⟩

def listLtB : List Char → List Char → Bool
  | [], [] => false
  | [], _ :: _ => true
  | _ :: _, [] => false
  | a :: as, b :: bs =>
    if a.toNat < b.toNat then true
    else if b.toNat < a.toNat then false
    else listLtB as bs

def strLtB (s t : String) : Bool := listLtB s.data t.data

-- digit lemmas ----------------------------------------------------------

/-- An activity record as consumed by `_calculate_strain_pmc` and
`_calculate_energy_balance`. For the date fields, `none` models an absent
key, `some none` a key present with value `None`, and `some (some s)` a
string value. For the three strain fields, `none` models an absent or null
value, which `activity.get(key, 0) or 0` turns into `0`; numbers are
modelled exactly as rationals. -/
structure Activity where
  start_date : Option (Option String)
  startTime : Option (Option String)
  ss_cp : Option ℚ
  ss_w_prime : Option ℚ
  ss_p_max : Option ℚ
deriving DecidableEq

/-- The value of `activity.get("start_date", activity.get("startTime", ""))`:
`none` is Python `None`, which the subsequent `[:10]` slice raises on. -/
def rawDate (a : Activity) : Option String :=
  match a.start_date with
  | some v => v
  | none =>
    match a.startTime with
    | some v => v
    | none => some ""

/-- Per-system strain triple: `sscp` = `ss_cp`, `ssw` = `ss_w_prime`,
`sspmax` = `ss_p_max`. -/
structure Triple where
  sscp : ℚ
  ssw : ℚ
  sspmax : ℚ
deriving DecidableEq

def Triple.zero : Triple := ⟨0, 0, 0⟩

def Triple.add (t u : Triple) : Triple :=
  ⟨t.sscp + u.sscp, t.ssw + u.ssw, t.sspmax + u.sspmax⟩

/-- The strain triple of one activity: `activity.get("ss_cp", 0) or 0`
and likewise for the other two fields. -/
def tripleOf (a : Activity) : Triple :=
  ⟨a.ss_cp.getD 0, a.ss_w_prime.getD 0, a.ss_p_max.getD 0⟩

/-- Python's `s[:10]` (first 10 code points). -/
def take10 (s : String) : String := ⟨s.data.take 10⟩

/-- The keys inserted into `daily_strain`, in activity order: an activity
whose raw date is `None` raises `TypeError` at the `[:10]` slice; one whose
truncated date string is empty is skipped (`if not date_str: continue`);
any other activity contributes its 10-character prefix as a key. -/
def keysOf : List Activity → Except Unit (List String)
  | [] => .ok []
  | a :: rest =>
    match rawDate a with
    | none => .error ()
    | some s =>
      match keysOf rest with
      | .error e => .error e
      | .ok ks => .ok (if take10 s = "" then ks else take10 s :: ks)

/-- The `daily_strain[key]` entry: per-system sum of the non-skipped
activities whose truncated date string equals `key` (defaultdict: the zero
triple when none match). -/
def dayLoad (acts : List Activity) (key : String) : Triple :=
  acts.foldl (fun t a =>
    match rawDate a with
    | some s => if take10 s = key ∧ take10 s ≠ "" then t.add (tripleOf a) else t
    | none => t) Triple.zero

/-- Python's `min` over a list of strings: first minimum under the
lexicographic code-point order; `none` on the empty list (`ValueError`). -/
def listMin : List String → Option String
  | [] => none
  | s :: rest => some (rest.foldl (fun m t => if strLtB t m then t else m) s)

/-- The dates visited by `while current_date <= as_of_date:` starting at
`c`, with explicit fuel (the loop itself always advances one calendar day
per iteration, so the fuel chosen in `dayList` is exact). -/
def dayListF (asOf : Date) : Nat → Date → List Date
  | 0, _ => []
  | fuel + 1, c =>
    if toOrdinal c ≤ toOrdinal asOf then c :: dayListF asOf fuel (nextDay c)
    else []

/-- The ascending list of calendar days from `start` through `asOf`
inclusive (empty when `start` is later than `asOf`): exactly the days the
source's date loop visits. -/
def dayList (asOf start : Date) : List Date :=
  dayListF asOf (toOrdinal asOf + 1 - toOrdinal start) start

/-- The daily strain series consumed by the decay loop: the
`daily_strain[current_date.strftime("%Y-%m-%d")]` lookup for each visited
day. -/
def seriesOf (acts : List Activity) (asOf start : Date) : List Triple :=
  (dayList asOf start).map (fun d => dayLoad acts (strfDate d))

/-- Per-system mutable PMC state (`pmc[sys]["ctl"]`, `pmc[sys]["atl"]`). -/
structure SysState where
  ctl : ℝ
  atl : ℝ

/-- The full PMC state for the three systems. -/
structure PmcAll where
  sscp : SysState
  ssw : SysState
  sspmax : SysState

/-- One CTL/ATL update of the loop body: `v * decay + load * (1 - decay)`
(`ctl_factor`/`atl_factor` is `1 - decay`, computed once per call). -/
noncomputable def sysStep (decay v load : ℝ) : ℝ := v * decay + load * (1 - decay)

/-- One day of the loop body: both recurrences for all three systems, with
the same daily load per system. -/
noncomputable def pmcStep (ctlDecay atlDecay : ℝ) (st : PmcAll) (t : Triple) : PmcAll :=
  ⟨⟨sysStep ctlDecay st.sscp.ctl (t.sscp : ℝ), sysStep atlDecay st.sscp.atl (t.sscp : ℝ)⟩,
   ⟨sysStep ctlDecay st.ssw.ctl (t.ssw : ℝ), sysStep atlDecay st.ssw.atl (t.ssw : ℝ)⟩,
   ⟨sysStep ctlDecay st.sspmax.ctl (t.sspmax : ℝ), sysStep atlDecay st.sspmax.atl (t.sspmax : ℝ)⟩⟩

/-- The zero initialisation of the PMC state. -/
def initPmc : PmcAll := ⟨⟨0, 0⟩, ⟨0, 0⟩, ⟨0, 0⟩⟩

/-- The whole date loop over the daily series. -/
noncomputable def pmcLoop (ctlDecay atlDecay : ℝ) (series : List Triple) : PmcAll :=
  series.foldl (pmcStep ctlDecay atlDecay) initPmc

/-- Per-system result: fitness (CTL), fatigue (ATL), form (TSB). -/
structure SysPmc where
  ctl : ℝ
  atl : ℝ
  tsb : ℝ

/-- The result dictionary of `_calculate_strain_pmc`. -/
structure PmcResult where
  sscp : SysPmc
  ssw : SysPmc
  sspmax : SysPmc

/-- The final `tsb = ctl - atl` pass, run once after the loop. -/
noncomputable def finalizeSys (st : SysState) : SysPmc := ⟨st.ctl, st.atl, st.ctl - st.atl⟩

/-- Finalisation for all three systems. -/
noncomputable def finalizePmc (p : PmcAll) : PmcResult :=
  ⟨finalizeSys p.sscp, finalizeSys p.ssw, finalizeSys p.sspmax⟩

/-- The core `_calculate_strain_pmc(activities, as_of_date, ctl_days,
atl_days)`. -/
noncomputable def calculateStrainPmc (acts : List Activity) (asOf : Date)
    (ctlDays atlDays : ℕ) : Except Unit PmcResult :=
  if ctlDays = 0 ∨ atlDays = 0 then .error ()
  else
  let ctlDecay : ℝ := Real.exp (-1 / (ctlDays : ℝ))
  let atlDecay : ℝ := Real.exp (-1 / (atlDays : ℝ))
  match keysOf acts with
  | .error e => .error e
  | .ok keys =>
    match acts with
    | [] =>
      .ok (finalizePmc (pmcLoop ctlDecay atlDecay
        (seriesOf [] asOf (subDays asOf 90))))
    | _ :: _ =>
      match listMin keys with
      | none => .error ()
      | some k =>
        match parseDate k with
        | none => .error ()
        | some start =>
          .ok (finalizePmc (pmcLoop ctlDecay atlDecay (seriesOf acts asOf start)))

/-- The result dictionary of `_calculate_energy_balance`. -/
structure Balance where
  aerobic_pct : ℚ
  glycolytic_pct : ℚ
  neuromuscular_pct : ℚ
  aerobic_total : ℚ
  glycolytic_total : ℚ
  neuromuscular_total : ℚ
  total_strain : ℚ
deriving DecidableEq

/-- The core `_calculate_energy_balance(activities)`: aerobic = `ss_cp`, glycolytic =
`ss_w_prime`, neuromuscular = `ss_p_max`. -/
def calculateEnergyBalance (acts : List Activity) : Balance :=
  let totals := acts.foldl (fun t a => t.add (tripleOf a)) Triple.zero
  let total_strain := totals.sscp + totals.ssw + totals.sspmax
  if total_strain = 0 then ⟨0, 0, 0, 0, 0, 0, 0⟩
  else
    ⟨totals.sscp / total_strain * 100, totals.ssw / total_strain * 100,
     totals.sspmax / total_strain * 100, totals.sscp, totals.ssw,
     totals.sspmax, total_strain⟩

/-- The calendar date of an activity as the specification reads it: the
parsed 10-character prefix of its date field (`none` when the field is
missing, null or malformed). -/
def parsedKey (a : Activity) : Option Date :=
  (rawDate a).bind (fun s => parseDate (take10 s))

/-- Spec-side (refinement) definition, following the specification's words:
the aggregated triple of a calendar day is "the per-system sum over all
activities sharing that date", grouping by parsed date; a day with no
matching activity gets the all-zero triple. -/
def specDayLoad (acts : List Activity) (dt : Date) : Triple :=
  acts.foldl (fun t a => if parsedKey a = some dt then t.add (tripleOf a) else t)
    Triple.zero

/-- The per-system exponentially-weighted recurrence of the source as a
fold: starting from `0`, each day performs `v * decay + load * (1 - decay)`.
Both the fitness (CTL) and the fatigue (ATL) column of
`_calculate_strain_pmc` are instances of this fold (see the projection
lemmas below). -/
noncomputable def pmcFold (decay : ℝ) (loads : List ℝ) : ℝ :=
  loads.foldl (sysStep decay) 0

/-- Every activity's date field is well-formed: it resolves to a string
whose 10-character prefix is a canonical `YYYY-MM-DD` date. -/
def wellFormedDates (acts : List Activity) : Prop :=
  ∀ a ∈ acts, (parsedKey a).isSome = true

/-- The key string an activity of a well-formed list contributes to
`daily_strain`. -/
def keyStr (a : Activity) : String := take10 ((rawDate a).getD "")

/-- A concrete activity fixture: date string `s` with the three strain
scores `c`, `w`, `p`. -/
def actOn (s : String) (c w p : ℚ) : Activity :=
  ⟨some (some s), none, some c, some w, some p⟩

/-- The strain totals accumulated by `_calculate_energy_balance`. -/
def totalsOf (acts : List Activity) : Triple :=
  acts.foldl (fun t a => t.add (tripleOf a)) Triple.zero

/-- The three concrete activities of the spec's scenario (2024-01-01:
aerobic 45.0, glycolytic 2.5, neuromuscular 0.8; 2024-01-02: 30.0, 5.0,
1.2; 2024-01-03: 50.0, 1.5, 0.5). -/
def c6acts : List Activity :=
  [actOn "2024-01-01" 45 (5 / 2) (4 / 5), actOn "2024-01-02" 30 5 (6 / 5),
   actOn "2024-01-03" 50 (3 / 2) (1 / 2)]

/-! ### Theorems -/

theorem daysBeforeYear_succ (y : Nat) (hy : 1 ≤ y) :
    daysBeforeYear (y + 1) = daysBeforeYear y + 365 + (if isLeap y then 1 else 0) := by
  have hiff : isLeap y = true ↔ (y % 4 = 0 ∧ y % 100 ≠ 0 ∨ y % 400 = 0) := by
    simp [isLeap]
  by_cases hL : isLeap y = true
  · rw [if_pos hL]
    have hc := hiff.mp hL
    unfold daysBeforeYear
    omega
  · rw [if_neg hL]
    have hc : ¬(y % 4 = 0 ∧ y % 100 ≠ 0 ∨ y % 400 = 0) := fun hx => hL (hiff.mpr hx)
    unfold daysBeforeYear
    omega

theorem daysBeforeYear_mono {y y' : Nat} (h : y ≤ y') :
    daysBeforeYear y ≤ daysBeforeYear y' := by
  induction y' with
  | zero => simp_all [daysBeforeYear]
  | succ n ih =>
    rcases Nat.lt_or_ge y (n + 1) with h1 | h1
    · rcases Nat.eq_zero_or_pos n with rfl | hn
      · interval_cases y <;> simp [daysBeforeYear]
      · calc daysBeforeYear y ≤ daysBeforeYear n := ih (by omega)
          _ ≤ daysBeforeYear (n + 1) := by
              rw [daysBeforeYear_succ n hn]; split <;> omega
    · have hy : y = n + 1 := by omega
      simp [hy]

theorem daysInMonthB_pos (L : Bool) (m : Nat) (h1 : 1 ≤ m) (h2 : m ≤ 12) :
    1 ≤ daysInMonthB L m := by
  interval_cases m <;> cases L <;> simp [daysInMonthB]

theorem daysBeforeMonth_succ (L : Bool) (m : Nat) (h1 : 1 ≤ m) (h2 : m ≤ 11) :
    daysBeforeMonth L (m + 1) = daysBeforeMonth L m + daysInMonthB L m := by
  interval_cases m <;> cases L <;> simp [daysBeforeMonth, daysInMonthB]

theorem daysBeforeMonth_mono (L : Bool) (m m' : Nat) (h1 : 1 ≤ m)
    (h2 : m < m') (h3 : m' ≤ 12) :
    daysBeforeMonth L m + daysInMonthB L m ≤ daysBeforeMonth L m' := by
  have h4 : m ≤ 11 := by omega
  interval_cases m <;> interval_cases m' <;> cases L <;>
    simp [daysBeforeMonth, daysInMonthB]

theorem daysBeforeMonth_add_le (L : Bool) (m d : Nat) (h1 : 1 ≤ m)
    (h2 : m ≤ 12) (h3 : d ≤ daysInMonthB L m) :
    daysBeforeMonth L m + d ≤ 365 + (if L then 1 else 0) := by
  interval_cases m <;> cases L <;> simp_all [daysBeforeMonth, daysInMonthB] <;> omega

theorem nextDay_valid {dt : Date} (h : dt.valid = true) :
    (nextDay dt).valid = true := by
  simp only [Date.valid, decide_eq_true_eq] at h
  obtain ⟨hy, hm1, hm2, hd1, hd2⟩ := h
  unfold nextDay
  split
  · simp only [Date.valid, decide_eq_true_eq]
    exact ⟨hy, hm1, hm2, by omega, by omega⟩
  · split
    · simp only [Date.valid, decide_eq_true_eq]
      exact ⟨hy, by omega, by omega, le_refl 1,
        daysInMonthB_pos _ _ (by omega) (by omega)⟩
    · simp only [Date.valid, decide_eq_true_eq]
      exact ⟨by omega, by omega, by omega, le_refl 1,
        daysInMonthB_pos _ _ (by omega) (by omega)⟩

theorem toOrdinal_nextDay {dt : Date} (h : dt.valid = true) :
    toOrdinal (nextDay dt) = toOrdinal dt + 1 := by
  simp only [Date.valid, decide_eq_true_eq] at h
  obtain ⟨hy, hm1, hm2, hd1, hd2⟩ := h
  unfold nextDay
  split
  · show daysBeforeYear dt.y + daysBeforeMonth (isLeap dt.y) dt.m + (dt.d + 1) =
      daysBeforeYear dt.y + daysBeforeMonth (isLeap dt.y) dt.m + dt.d + 1
    omega
  · split
    · have hm12 : dt.m ≤ 11 := by omega
      simp only [toOrdinal]
      rw [daysBeforeMonth_succ _ _ hm1 hm12]
      omega
    · have hm : dt.m = 12 := by omega
      have hd : dt.d = 31 := by
        have h31 : daysInMonthB (isLeap dt.y) dt.m = 31 := by
          rw [hm]; cases isLeap dt.y <;> rfl
        omega
      simp only [toOrdinal]
      rw [daysBeforeYear_succ _ hy]
      have h1 : daysBeforeMonth (isLeap (dt.y + 1)) 1 = 0 := by
        cases isLeap (dt.y + 1) <;> rfl
      have h12 : daysBeforeMonth (isLeap dt.y) 12 =
          334 + (if isLeap dt.y then 1 else 0) := by
        cases isLeap dt.y <;> rfl
      rw [h1, hm, h12, hd]
      omega

theorem toOrdinal_lt_of_lexLt {a b : Date} (ha : a.valid = true)
    (hb : b.valid = true) (h : a.lexLt b) : toOrdinal a < toOrdinal b := by
  simp only [Date.valid, decide_eq_true_eq] at ha hb
  obtain ⟨hay, ham1, ham2, had1, had2⟩ := ha
  obtain ⟨hby, hbm1, hbm2, hbd1, hbd2⟩ := hb
  rcases h with hy | ⟨hy, hm | ⟨hm, hd⟩⟩
  · have h1 : daysBeforeMonth (isLeap a.y) a.m + a.d ≤
        365 + (if isLeap a.y then 1 else 0) :=
      daysBeforeMonth_add_le _ _ _ ham1 ham2 had2
    have h2 : daysBeforeYear (a.y + 1) ≤ daysBeforeYear b.y :=
      daysBeforeYear_mono (by omega)
    have h3 := daysBeforeYear_succ a.y hay
    simp only [toOrdinal]
    omega
  · have h1 : daysBeforeMonth (isLeap a.y) a.m + daysInMonthB (isLeap a.y) a.m ≤
        daysBeforeMonth (isLeap a.y) b.m :=
      daysBeforeMonth_mono _ _ _ ham1 hm hbm2
    simp only [toOrdinal, hy]
    rw [hy] at h1 had2
    omega
  · simp only [toOrdinal, hy, hm]
    omega

theorem lexLt_trichotomy (a b : Date) : a.lexLt b ∨ a = b ∨ b.lexLt a := by
  unfold Date.lexLt
  rcases a with ⟨ay, am, ad⟩
  rcases b with ⟨by', bm, bd⟩
  simp only [Date.mk.injEq]
  omega

theorem toOrdinal_inj {a b : Date} (ha : a.valid = true) (hb : b.valid = true)
    (h : toOrdinal a = toOrdinal b) : a = b := by
  rcases lexLt_trichotomy a b with hlt | heq | hgt
  · exact absurd h (Nat.ne_of_lt (toOrdinal_lt_of_lexLt ha hb hlt))
  · exact heq
  · exact absurd h.symm (Nat.ne_of_lt (toOrdinal_lt_of_lexLt hb ha hgt))

theorem year_le_of_toOrdinal_le {a b : Date} (ha : a.valid = true)
    (hb : b.valid = true) (h : toOrdinal a ≤ toOrdinal b) : a.y ≤ b.y := by
  by_contra hy
  have : b.lexLt a := Or.inl (by omega)
  exact absurd (toOrdinal_lt_of_lexLt hb ha this) (by omega)

theorem isDigitCh_digitCh {n : Nat} (h : n ≤ 9) : isDigitCh (digitCh n) = true := by
  interval_cases n <;> decide

theorem digitVal_digitCh {n : Nat} (h : n ≤ 9) : digitVal (digitCh n) = n := by
  interval_cases n <;> decide

theorem digitCh_digitVal {c : Char} (h : isDigitCh c = true) :
    digitCh (digitVal c) = c := by
  simp only [isDigitCh, decide_eq_true_eq] at h
  unfold digitCh digitVal
  have he : 48 + (c.toNat - 48) = c.toNat := by omega
  rw [he, Char.ofNat_toNat]

theorem digitVal_le {c : Char} (h : isDigitCh c = true) : digitVal c ≤ 9 := by
  simp only [isDigitCh, decide_eq_true_eq] at h
  unfold digitVal
  omega

theorem listLtB_nil : listLtB [] [] = false := rfl

theorem daysInMonthB_le (L : Bool) (m : Nat) : daysInMonthB L m ≤ 31 := by
  unfold daysInMonthB
  split <;> first | omega | (cases L <;> simp)

theorem parse_format {dt : Date} (hv : dt.valid = true) (hy : dt.y ≤ 9999) :
    parseDate (formatDate dt) = some dt := by
  have hv' := hv
  simp only [Date.valid, decide_eq_true_eq] at hv'
  obtain ⟨h1, h2, h3, h4, h5⟩ := hv'
  have hm99 : dt.m ≤ 99 := by omega
  have hd99 : dt.d ≤ 99 := by
    have := daysInMonthB_le (isLeap dt.y) dt.m
    omega
  have b1 : dt.y / 1000 % 10 ≤ 9 := by omega
  have b2 : dt.y / 100 % 10 ≤ 9 := by omega
  have b3 : dt.y / 10 % 10 ≤ 9 := by omega
  have b4 : dt.y % 10 ≤ 9 := by omega
  have b5 : dt.m / 10 % 10 ≤ 9 := by omega
  have b6 : dt.m % 10 ≤ 9 := by omega
  have b7 : dt.d / 10 % 10 ≤ 9 := by omega
  have b8 : dt.d % 10 ≤ 9 := by omega
  simp only [parseDate, formatDate, fmtList, parseDateList]
  rw [if_pos ⟨trivial, trivial, isDigitCh_digitCh b1, isDigitCh_digitCh b2,
    isDigitCh_digitCh b3, isDigitCh_digitCh b4, isDigitCh_digitCh b5,
    isDigitCh_digitCh b6, isDigitCh_digitCh b7, isDigitCh_digitCh b8⟩]
  rw [digitVal_digitCh b1, digitVal_digitCh b2, digitVal_digitCh b3,
    digitVal_digitCh b4, digitVal_digitCh b5, digitVal_digitCh b6,
    digitVal_digitCh b7, digitVal_digitCh b8]
  have hy' : 1000 * (dt.y / 1000 % 10) + 100 * (dt.y / 100 % 10) +
      10 * (dt.y / 10 % 10) + dt.y % 10 = dt.y := by omega
  have hm' : 10 * (dt.m / 10 % 10) + dt.m % 10 = dt.m := by omega
  have hd' : 10 * (dt.d / 10 % 10) + dt.d % 10 = dt.d := by omega
  simp only [hy', hm', hd']
  rw [if_pos hv]

theorem format_parse {s : String} {dt : Date} (h : parseDate s = some dt) :
    formatDate dt = s ∧ dt.valid = true ∧ dt.y ≤ 9999 := by
  obtain ⟨l⟩ := s
  simp only [parseDate] at h
  match l, h with
  | [y1, y2, y3, y4, s1, m1, m2, s2, d1, d2], h => ?_
  rw [parseDateList] at h
  split at h
  · rename_i hc
    obtain ⟨hs1, hs2, hy1, hy2, hy3, hy4, hm1, hm2, hd1, hd2⟩ := hc
    split at h
    · rename_i hval
      have hdt := Option.some.inj h
      have v1 := digitVal_le hy1
      have v2 := digitVal_le hy2
      have v3 := digitVal_le hy3
      have v4 := digitVal_le hy4
      have v5 := digitVal_le hm1
      have v6 := digitVal_le hm2
      have v7 := digitVal_le hd1
      have v8 := digitVal_le hd2
      refine ⟨?_, ?_, ?_⟩
      · simp only [formatDate, fmtList, ← hdt]
        have e1 : (1000 * digitVal y1 + 100 * digitVal y2 + 10 * digitVal y3 +
            digitVal y4) / 1000 % 10 = digitVal y1 := by omega
        have e2 : (1000 * digitVal y1 + 100 * digitVal y2 + 10 * digitVal y3 +
            digitVal y4) / 100 % 10 = digitVal y2 := by omega
        have e3 : (1000 * digitVal y1 + 100 * digitVal y2 + 10 * digitVal y3 +
            digitVal y4) / 10 % 10 = digitVal y3 := by omega
        have e4 : (1000 * digitVal y1 + 100 * digitVal y2 + 10 * digitVal y3 +
            digitVal y4) % 10 = digitVal y4 := by omega
        have e5 : (10 * digitVal m1 + digitVal m2) / 10 % 10 = digitVal m1 := by omega
        have e6 : (10 * digitVal m1 + digitVal m2) % 10 = digitVal m2 := by omega
        have e7 : (10 * digitVal d1 + digitVal d2) / 10 % 10 = digitVal d1 := by omega
        have e8 : (10 * digitVal d1 + digitVal d2) % 10 = digitVal d2 := by omega
        rw [e1, e2, e3, e4, e5, e6, e7, e8]
        rw [digitCh_digitVal hy1, digitCh_digitVal hy2, digitCh_digitVal hy3,
          digitCh_digitVal hy4, digitCh_digitVal hm1, digitCh_digitVal hm2,
          digitCh_digitVal hd1, digitCh_digitVal hd2]
        rw [hs1, hs2]
      · rw [← hdt]
        exact hval
      · rw [← hdt]
        show 1000 * digitVal y1 + 100 * digitVal y2 + 10 * digitVal y3 +
          digitVal y4 ≤ 9999
        omega
    · exact absurd h (by simp)
  · exact absurd h (by simp)

theorem dayListF_spec (asOf : Date) :
    ∀ (fuel : Nat) (c : Date), c.valid = true →
      toOrdinal asOf + 1 - toOrdinal c ≤ fuel →
      (dayListF asOf fuel c).map toOrdinal =
        List.range' (toOrdinal c) (toOrdinal asOf + 1 - toOrdinal c) := by
  intro fuel
  induction fuel with
  | zero =>
    intro c hc hle
    have h0 : toOrdinal asOf + 1 - toOrdinal c = 0 := by omega
    simp [dayListF, h0]
  | succ n ih =>
    intro c hc hle
    by_cases h : toOrdinal c ≤ toOrdinal asOf
    · have hstep := toOrdinal_nextDay hc
      have hn : toOrdinal asOf + 1 - toOrdinal c =
          (toOrdinal asOf + 1 - toOrdinal (nextDay c)) + 1 := by omega
      rw [dayListF, if_pos h]
      simp only [List.map_cons]
      rw [ih (nextDay c) (nextDay_valid hc) (by omega)]
      rw [hn, List.range'_succ]
      rw [hstep]
    · rw [dayListF, if_neg h]
      have h0 : toOrdinal asOf + 1 - toOrdinal c = 0 := by omega
      simp [h0]

theorem dayList_map_toOrdinal {asOf start : Date} (h : start.valid = true) :
    (dayList asOf start).map toOrdinal =
      List.range' (toOrdinal start) (toOrdinal asOf + 1 - toOrdinal start) :=
  dayListF_spec asOf _ start h le_rfl

theorem dayListF_mem_valid (asOf : Date) :
    ∀ (fuel : Nat) (c : Date), c.valid = true →
      ∀ d ∈ dayListF asOf fuel c, d.valid = true := by
  intro fuel
  induction fuel with
  | zero =>
    intro c hc d hd
    simp [dayListF] at hd
  | succ n ih =>
    intro c hc d hd
    rw [dayListF] at hd
    by_cases h : toOrdinal c ≤ toOrdinal asOf
    · rw [if_pos h] at hd
      rcases List.mem_cons.mp hd with rfl | hd
      · exact hc
      · exact ih (nextDay c) (nextDay_valid hc) d hd
    · rw [if_neg h] at hd
      simp at hd

theorem dayList_mem_valid {asOf start : Date} (h : start.valid = true) :
    ∀ d ∈ dayList asOf start, d.valid = true :=
  dayListF_mem_valid asOf _ start h

theorem dayList_mem_ord {asOf start : Date} (h : start.valid = true)
    {d : Date} (hd : d ∈ dayList asOf start) :
    toOrdinal start ≤ toOrdinal d ∧ toOrdinal d ≤ toOrdinal asOf := by
  have hmem : toOrdinal d ∈ (dayList asOf start).map toOrdinal :=
    List.mem_map_of_mem toOrdinal hd
  rw [dayList_map_toOrdinal h] at hmem
  have := List.mem_range'_1.mp hmem
  omega

theorem dayList_mem_y_le {asOf start d : Date} (hs : start.valid = true)
    (ha : asOf.valid = true) (hy : asOf.y ≤ 9999)
    (hd : d ∈ dayList asOf start) : d.y ≤ 9999 := by
  have hv := dayList_mem_valid hs d hd
  have hord := (dayList_mem_ord hs hd).2
  have := year_le_of_toOrdinal_le hv ha hord
  omega

theorem formatDate_ne_empty (dt : Date) : formatDate dt ≠ "" := by
  intro h
  have h2 := congrArg String.data h
  simp [formatDate, fmtList] at h2

theorem parse_some_ne_empty {t : String} {dt : Date}
    (h : parseDate t = some dt) : t ≠ "" := by
  intro he
  subst he
  simp [parseDate, parseDateList] at h

theorem dayLoad_eq_specDayLoad {d : Date} (hv : d.valid = true)
    (hy : d.y ≤ 9999) (acts : List Activity) :
    dayLoad acts (formatDate d) = specDayLoad acts d := by
  unfold dayLoad specDayLoad
  refine List.foldl_ext _ _ _ ?_
  intro t a _
  cases hra : rawDate a with
  | none => simp [parsedKey, hra]
  | some s =>
    simp only [parsedKey, hra, Option.some_bind]
    by_cases hp : parseDate (take10 s) = some d
    · obtain ⟨hfmt, _, _⟩ := format_parse hp
      rw [if_pos hp, if_pos ⟨hfmt.symm, hfmt ▸ formatDate_ne_empty d⟩]
    · rw [if_neg hp, if_neg ?_]
      rintro ⟨he, -⟩
      exact hp (he ▸ parse_format hv hy)

theorem keysOf_canonical {acts : List Activity}
    (h : ∀ a ∈ acts, (parsedKey a).isSome = true) :
    keysOf acts = .ok (acts.map (fun a => take10 ((rawDate a).getD ""))) := by
  induction acts with
  | nil => rfl
  | cons a rest ih =>
    have ha := h a (List.mem_cons_self a rest)
    cases hra : rawDate a with
    | none =>
      rw [parsedKey, hra] at ha
      simp at ha
    | some s =>
      have hps : (parseDate (take10 s)).isSome = true := by
        simpa [parsedKey, hra] using ha
      obtain ⟨dt, hdt⟩ := Option.isSome_iff_exists.mp hps
      have hne : take10 s ≠ "" := parse_some_ne_empty hdt
      simp only [keysOf, hra, ih (fun b hb => h b (List.mem_cons_of_mem a hb)),
        if_neg hne, List.map_cons, hra, Option.getD_some]

theorem foldl_pmcStep_proj (cd ad dec : ℝ) (f : PmcAll → ℝ) (g : Triple → ℝ)
    (hf : ∀ st t, f (pmcStep cd ad st t) = sysStep dec (f st) (g t)) :
    ∀ (series : List Triple) (st : PmcAll),
      f (series.foldl (pmcStep cd ad) st) =
        (series.map g).foldl (sysStep dec) (f st) := by
  intro series
  induction series with
  | nil => intro st; rfl
  | cons t rest ih =>
    intro st
    simp only [List.foldl_cons, List.map_cons, ih, hf]

theorem pmcLoop_sscp_ctl (cd ad : ℝ) (series : List Triple) :
    (pmcLoop cd ad series).sscp.ctl =
      pmcFold cd (series.map (fun t => (t.sscp : ℝ))) :=
  foldl_pmcStep_proj cd ad cd (fun p => p.sscp.ctl) _ (fun _ _ => rfl) series initPmc

theorem pmcLoop_sscp_atl (cd ad : ℝ) (series : List Triple) :
    (pmcLoop cd ad series).sscp.atl =
      pmcFold ad (series.map (fun t => (t.sscp : ℝ))) :=
  foldl_pmcStep_proj cd ad ad (fun p => p.sscp.atl) _ (fun _ _ => rfl) series initPmc

theorem pmcLoop_ssw_ctl (cd ad : ℝ) (series : List Triple) :
    (pmcLoop cd ad series).ssw.ctl =
      pmcFold cd (series.map (fun t => (t.ssw : ℝ))) :=
  foldl_pmcStep_proj cd ad cd (fun p => p.ssw.ctl) _ (fun _ _ => rfl) series initPmc

theorem pmcLoop_ssw_atl (cd ad : ℝ) (series : List Triple) :
    (pmcLoop cd ad series).ssw.atl =
      pmcFold ad (series.map (fun t => (t.ssw : ℝ))) :=
  foldl_pmcStep_proj cd ad ad (fun p => p.ssw.atl) _ (fun _ _ => rfl) series initPmc

theorem pmcLoop_sspmax_ctl (cd ad : ℝ) (series : List Triple) :
    (pmcLoop cd ad series).sspmax.ctl =
      pmcFold cd (series.map (fun t => (t.sspmax : ℝ))) :=
  foldl_pmcStep_proj cd ad cd (fun p => p.sspmax.ctl) _ (fun _ _ => rfl) series initPmc

theorem pmcLoop_sspmax_atl (cd ad : ℝ) (series : List Triple) :
    (pmcLoop cd ad series).sspmax.atl =
      pmcFold ad (series.map (fun t => (t.sspmax : ℝ))) :=
  foldl_pmcStep_proj cd ad ad (fun p => p.sspmax.atl) _ (fun _ _ => rfl) series initPmc

theorem foldl_sysStep_replicate (α L : ℝ) :
    ∀ (n : ℕ) (v : ℝ),
      (List.replicate n L).foldl (sysStep α) v = v * α ^ n + L * (1 - α ^ n) := by
  intro n
  induction n with
  | zero =>
    intro v
    simp
  | succ k ih =>
    intro v
    rw [List.replicate_succ, List.foldl_cons, ih]
    unfold sysStep
    ring

theorem pmcFold_replicate (α L : ℝ) (n : ℕ) :
    pmcFold α (List.replicate n L) = L * (1 - α ^ n) := by
  rw [pmcFold, foldl_sysStep_replicate]
  ring

theorem pmcFold_single (α L : ℝ) : pmcFold α [L] = L * (1 - α) := by
  simp [pmcFold, sysStep]

theorem pmcFold_spike (α L : ℝ) (n : ℕ) :
    pmcFold α (L :: List.replicate n 0) = L * (1 - α) * α ^ n := by
  rw [pmcFold, List.foldl_cons, foldl_sysStep_replicate]
  unfold sysStep
  ring

theorem foldl_sysStep_nonneg {α : ℝ} (h0 : 0 < α) (h1 : α < 1) :
    ∀ {loads : List ℝ}, (∀ l ∈ loads, 0 ≤ l) → ∀ {v : ℝ}, 0 ≤ v →
      0 ≤ loads.foldl (sysStep α) v := by
  intro loads
  induction loads with
  | nil =>
    intro _ v hv
    exact hv
  | cons l rest ih =>
    intro hl v hv
    rw [List.foldl_cons]
    refine ih (fun x hx => hl x (List.mem_cons_of_mem l hx)) ?_
    have hl0 := hl l (List.mem_cons_self l rest)
    have hva : 0 ≤ v * α := mul_nonneg hv h0.le
    have hlf : 0 ≤ l * (1 - α) := mul_nonneg hl0 (by linarith)
    unfold sysStep
    linarith

theorem foldl_sysStep_pos {α : ℝ} (h0 : 0 < α) (h1 : α < 1) :
    ∀ {loads : List ℝ}, (∀ l ∈ loads, 0 ≤ l) → ∀ {v : ℝ}, 0 ≤ v →
      (0 < v ∨ ∃ l ∈ loads, 0 < l) → 0 < loads.foldl (sysStep α) v := by
  intro loads
  induction loads with
  | nil =>
    intro _ v hv hc
    rcases hc with hc | ⟨l, hl, _⟩
    · exact hc
    · simp at hl
  | cons l rest ih =>
    intro hl v hv hc
    rw [List.foldl_cons]
    have hl0 := hl l (List.mem_cons_self l rest)
    have hva : 0 ≤ v * α := mul_nonneg hv h0.le
    have hlf : 0 ≤ l * (1 - α) := mul_nonneg hl0 (by linarith)
    have hnn : 0 ≤ sysStep α v l := by unfold sysStep; linarith
    have hrest : ∀ x ∈ rest, 0 ≤ x := fun x hx => hl x (List.mem_cons_of_mem l hx)
    rcases hc with hc | ⟨x, hx, hxpos⟩
    · refine ih hrest hnn (Or.inl ?_)
      have : 0 < v * α := mul_pos hc h0
      unfold sysStep
      linarith
    · rcases List.mem_cons.mp hx with rfl | hm
      · refine ih hrest hnn (Or.inl ?_)
        have : 0 < x * (1 - α) := mul_pos hxpos (by linarith)
        unfold sysStep
        linarith
      · exact ih hrest hnn (Or.inr ⟨x, hm, hxpos⟩)

theorem foldl_add_proj (f : Triple → ℚ)
    (hf : ∀ t u, f (t.add u) = f t + f u) :
    ∀ (acts : List Activity) (z : Triple),
      f (acts.foldl (fun t a => t.add (tripleOf a)) z) =
        f z + (acts.map (fun a => f (tripleOf a))).sum := by
  intro acts
  induction acts with
  | nil =>
    intro z
    simp
  | cons a rest ih =>
    intro z
    rw [List.foldl_cons, ih, hf]
    simp [add_assoc]

theorem calculateStrainPmc_success {acts : List Activity} {asOf : Date}
    (hne : acts ≠ []) (hwf : wellFormedDates acts)
    {k : String} {start : Date}
    (hmin : listMin (acts.map keyStr) = some k)
    (hstart : parseDate k = some start) (ctlDays atlDays : ℕ)
    (h0c : ctlDays ≠ 0) (h0a : atlDays ≠ 0) :
    calculateStrainPmc acts asOf ctlDays atlDays =
      .ok (finalizePmc (pmcLoop (Real.exp (-1 / (ctlDays : ℝ)))
        (Real.exp (-1 / (atlDays : ℝ))) (seriesOf acts asOf start))) := by
  obtain ⟨a, rest, rfl⟩ : ∃ a rest, acts = a :: rest := by
    cases acts with
    | nil => exact absurd rfl hne
    | cons a rest => exact ⟨a, rest, rfl⟩
  have hkeys : keysOf (a :: rest) = .ok ((a :: rest).map keyStr) :=
    keysOf_canonical hwf
  simp only [calculateStrainPmc, hkeys, hmin, hstart]
  rw [if_neg (not_or.mpr ⟨h0c, h0a⟩)]

theorem strfDate_eq_formatDate {dt : Date} (h : 1000 ≤ dt.y) :
    strfDate dt = formatDate dt := by
  unfold strfDate strfList strfYearChars formatDate fmtList
  rw [if_neg (by omega), if_neg (by omega), if_neg (by omega)]
  rfl

theorem dayList_mem_y_ge {asOf start : Date} (hs : start.valid = true)
    {d : Date} (hd : d ∈ dayList asOf start) : start.y ≤ d.y := by
  have hv := dayList_mem_valid hs d hd
  have hord := (dayList_mem_ord hs hd).1
  exact year_le_of_toOrdinal_le hs hv hord

theorem seriesOf_eq_spec {acts : List Activity} {asOf start : Date}
    (hstartv : start.valid = true) (hasOf : asOf.valid = true)
    (hasOfy : asOf.y ≤ 9999) (hy1000 : 1000 ≤ start.y) :
    seriesOf acts asOf start = (dayList asOf start).map (specDayLoad acts) := by
  unfold seriesOf
  refine List.map_congr_left ?_
  intro d hd
  rw [strfDate_eq_formatDate (le_trans hy1000 (dayList_mem_y_ge hstartv hd))]
  exact dayLoad_eq_specDayLoad (dayList_mem_valid hstartv d hd)
    (dayList_mem_y_le hstartv hasOf hasOfy hd) acts

theorem tripleOf_actOn (s : String) (c w p : ℚ) :
    tripleOf (actOn s c w p) = ⟨c, w, p⟩ := rfl

/-- C4 counterexample: one activity dated 0001-01-05 with `as_of_date`
0001-01-01 (minimum parsed date strictly later than `as_of_date`): the
series consumed by the decay loop is empty — the recurrence is applied to
zero days, not to the single day `as_of_date` as the claim states. -/
theorem claim_C4_counterexample :
    listMin ([actOn "0001-01-05" 10 10 10].map keyStr) = some "0001-01-05" ∧
    parseDate "0001-01-05" = some ⟨1, 1, 5⟩ ∧
    toOrdinal ⟨1, 1, 1⟩ < toOrdinal ⟨1, 1, 5⟩ ∧
    seriesOf [actOn "0001-01-05" 10 10 10] ⟨1, 1, 1⟩ ⟨1, 1, 5⟩ = [] ∧
    calculateStrainPmc [actOn "0001-01-05" 10 10 10] ⟨1, 1, 1⟩ 42 7 =
      .ok (finalizePmc (pmcLoop (Real.exp (-1 / ((42 : ℕ) : ℝ)))
        (Real.exp (-1 / ((7 : ℕ) : ℝ))) [])) :=
  ⟨by decide, by decide, by decide, by decide, rfl⟩

/-- C4 amended: for nonzero time constants (a zero `ctl_days` or `atl_days`
raises `ZeroDivisionError` at `math.exp(-1/ctl_days)` before the date
loop), when the minimum parsed activity date is strictly later than
`as_of_date`, the loop condition `current_date <= as_of_date` fails at
once: the decay recurrence is applied to zero days (the consumed series is
empty) and the returned PMC is the all-zero state — observationally equal
to one zero-load day, but not a single-day series. -/
theorem claim_C4_amended (acts : List Activity) (asOf : Date)
    (ctlDays atlDays : ℕ) (h0c : ctlDays ≠ 0) (h0a : atlDays ≠ 0)
    (hne : acts ≠ []) (hwf : wellFormedDates acts)
    (k : String) (start : Date) (hmin : listMin (acts.map keyStr) = some k)
    (hstart : parseDate k = some start)
    (hgt : toOrdinal asOf < toOrdinal start) :
    seriesOf acts asOf start = [] ∧
    calculateStrainPmc acts asOf ctlDays atlDays =
      .ok ⟨⟨0, 0, 0⟩, ⟨0, 0, 0⟩, ⟨0, 0, 0⟩⟩ := by
  have hser : seriesOf acts asOf start = [] := by
    unfold seriesOf dayList
    have h0 : toOrdinal asOf + 1 - toOrdinal start = 0 := by omega
    rw [h0]
    rfl
  refine ⟨hser, ?_⟩
  rw [calculateStrainPmc_success hne hwf hmin hstart ctlDays atlDays h0c h0a,
    hser]
  simp [pmcLoop, finalizePmc, finalizeSys, initPmc]

theorem claim_C4_amended_witness :
    seriesOf [actOn "2024-01-05" 10 10 10] ⟨2024, 1, 1⟩ ⟨2024, 1, 5⟩ = [] ∧
    calculateStrainPmc [actOn "2024-01-05" 10 10 10] ⟨2024, 1, 1⟩ 42 7 =
      .ok ⟨⟨0, 0, 0⟩, ⟨0, 0, 0⟩, ⟨0, 0, 0⟩⟩ :=
  claim_C4_amended [actOn "2024-01-05" 10 10 10] ⟨2024, 1, 1⟩ 42 7
    (by decide) (by decide) (by simp) (by unfold wellFormedDates; decide)
    "2024-01-05" ⟨2024, 1, 5⟩ (by decide) (by decide) (by decide)

theorem totalsOf_def (acts : List Activity) :
    List.foldl (fun t a => t.add (tripleOf a)) Triple.zero acts = totalsOf acts :=
  rfl

theorem totalsOf_sscp (acts : List Activity) :
    (totalsOf acts).sscp = (acts.map (fun a => (tripleOf a).sscp)).sum := by
  have h := foldl_add_proj (fun t => t.sscp) (fun _ _ => rfl) acts Triple.zero
  simpa [totalsOf, Triple.zero] using h

theorem totalsOf_ssw (acts : List Activity) :
    (totalsOf acts).ssw = (acts.map (fun a => (tripleOf a).ssw)).sum := by
  have h := foldl_add_proj (fun t => t.ssw) (fun _ _ => rfl) acts Triple.zero
  simpa [totalsOf, Triple.zero] using h

theorem totalsOf_sspmax (acts : List Activity) :
    (totalsOf acts).sspmax = (acts.map (fun a => (tripleOf a).sspmax)).sum := by
  have h := foldl_add_proj (fun t => t.sspmax) (fun _ _ => rfl) acts Triple.zero
  simpa [totalsOf, Triple.zero] using h

/-- C5: if the three per-system totals are all zero (in particular for the
empty list) `_calculate_energy_balance` returns `0.0` for all three totals,
all three percentages and the grand total (the zero-guard branch, so no
division is attempted and no error is raised — the function is total);
with a nonzero grand total, each percentage is `100 · system_total /
total_strain`. -/
theorem claim_C5 (acts : List Activity) :
    (totalsOf acts = Triple.zero →
      calculateEnergyBalance acts = ⟨0, 0, 0, 0, 0, 0, 0⟩) ∧
    ((totalsOf acts).sscp + (totalsOf acts).ssw + (totalsOf acts).sspmax ≠ 0 →
      calculateEnergyBalance acts =
        ⟨100 * (totalsOf acts).sscp /
            ((totalsOf acts).sscp + (totalsOf acts).ssw + (totalsOf acts).sspmax),
          100 * (totalsOf acts).ssw /
            ((totalsOf acts).sscp + (totalsOf acts).ssw + (totalsOf acts).sspmax),
          100 * (totalsOf acts).sspmax /
            ((totalsOf acts).sscp + (totalsOf acts).ssw + (totalsOf acts).sspmax),
          (totalsOf acts).sscp, (totalsOf acts).ssw, (totalsOf acts).sspmax,
          (totalsOf acts).sscp + (totalsOf acts).ssw + (totalsOf acts).sspmax⟩) := by
  constructor
  · intro h
    have h0 : (totalsOf acts).sscp + (totalsOf acts).ssw + (totalsOf acts).sspmax = 0 := by
      rw [h]
      simp [Triple.zero]
    simp only [calculateEnergyBalance, totalsOf_def]
    rw [if_pos h0]
  · intro h
    simp only [calculateEnergyBalance, totalsOf_def]
    rw [if_neg h]
    congr 1 <;> ring

theorem claim_C5_witness :
    calculateEnergyBalance [] = ⟨0, 0, 0, 0, 0, 0, 0⟩ ∧
    calculateEnergyBalance [actOn "0001-01-02" 1 2 3] =
      ⟨100 * 1 / 6, 100 * 2 / 6, 100 * 3 / 6, 1, 2, 3, 6⟩ := by
  constructor
  · exact (claim_C5 []).1 (by decide)
  · have h := (claim_C5 [actOn "0001-01-02" 1 2 3]).2
      (by norm_num [totalsOf, Triple.add, Triple.zero, tripleOf, actOn])
    rw [h]
    simp [totalsOf, Triple.add, Triple.zero, tripleOf, actOn]
    norm_num

/-- C9: `_calculate_energy_balance` returns the same totals and percentages
on any permutation of the activity list (summation is
permutation-invariant, and every returned field is a function of the
totals). -/
theorem claim_C9 (l1 l2 : List Activity) (h : l1.Perm l2) :
    calculateEnergyBalance l1 = calculateEnergyBalance l2 := by
  have ht : totalsOf l1 = totalsOf l2 := by
    have e1 : (totalsOf l1).sscp = (totalsOf l2).sscp := by
      rw [totalsOf_sscp, totalsOf_sscp]
      exact List.Perm.sum_eq (h.map _)
    have e2 : (totalsOf l1).ssw = (totalsOf l2).ssw := by
      rw [totalsOf_ssw, totalsOf_ssw]
      exact List.Perm.sum_eq (h.map _)
    have e3 : (totalsOf l1).sspmax = (totalsOf l2).sspmax := by
      rw [totalsOf_sspmax, totalsOf_sspmax]
      exact List.Perm.sum_eq (h.map _)
    cases hx : totalsOf l1
    cases hy : totalsOf l2
    rw [hx, hy] at e1 e2 e3
    simp_all
  have ht' : l1.foldl (fun t a => t.add (tripleOf a)) Triple.zero =
      l2.foldl (fun t a => t.add (tripleOf a)) Triple.zero := ht
  simp only [calculateEnergyBalance, ht']

theorem claim_C9_witness :
    calculateEnergyBalance [actOn "0001-01-02" 1 2 3, actOn "0001-01-03" 4 5 6] =
      calculateEnergyBalance [actOn "0001-01-03" 4 5 6, actOn "0001-01-02" 1 2 3] :=
  claim_C9 _ _ (List.Perm.swap _ _ _)

/-- C10 (implicit): the three percentages sum exactly to 100 whenever the
grand total is nonzero (and to 0 when it is zero), and under non-negative
strain inputs every percentage lies in `[0, 100]`. -/
theorem claim_C10 (acts : List Activity) :
    ((calculateEnergyBalance acts).total_strain ≠ 0 →
      (calculateEnergyBalance acts).aerobic_pct +
        (calculateEnergyBalance acts).glycolytic_pct +
        (calculateEnergyBalance acts).neuromuscular_pct = 100) ∧
    ((calculateEnergyBalance acts).total_strain = 0 →
      (calculateEnergyBalance acts).aerobic_pct +
        (calculateEnergyBalance acts).glycolytic_pct +
        (calculateEnergyBalance acts).neuromuscular_pct = 0) ∧
    ((∀ a ∈ acts, 0 ≤ (tripleOf a).sscp ∧ 0 ≤ (tripleOf a).ssw ∧
        0 ≤ (tripleOf a).sspmax) →
      0 ≤ (calculateEnergyBalance acts).aerobic_pct ∧
        (calculateEnergyBalance acts).aerobic_pct ≤ 100 ∧
        0 ≤ (calculateEnergyBalance acts).glycolytic_pct ∧
        (calculateEnergyBalance acts).glycolytic_pct ≤ 100 ∧
        0 ≤ (calculateEnergyBalance acts).neuromuscular_pct ∧
        (calculateEnergyBalance acts).neuromuscular_pct ≤ 100) := by
  by_cases hT : (totalsOf acts).sscp + (totalsOf acts).ssw +
      (totalsOf acts).sspmax = 0
  · have hB : calculateEnergyBalance acts = ⟨0, 0, 0, 0, 0, 0, 0⟩ := by
      simp only [calculateEnergyBalance, totalsOf_def]
      rw [if_pos hT]
    rw [hB]
    refine ⟨fun h => absurd rfl h, fun _ => by norm_num, fun _ => by norm_num⟩
  · have hB := (claim_C5 acts).2 hT
    rw [hB]
    have hnn : (∀ a ∈ acts, 0 ≤ (tripleOf a).sscp ∧ 0 ≤ (tripleOf a).ssw ∧
        0 ≤ (tripleOf a).sspmax) →
        0 ≤ (totalsOf acts).sscp ∧ 0 ≤ (totalsOf acts).ssw ∧
          0 ≤ (totalsOf acts).sspmax := by
      intro h
      refine ⟨?_, ?_, ?_⟩
      · rw [totalsOf_sscp]
        refine List.sum_nonneg ?_
        intro x hx
        obtain ⟨a, ha, rfl⟩ := List.mem_map.mp hx
        exact (h a ha).1
      · rw [totalsOf_ssw]
        refine List.sum_nonneg ?_
        intro x hx
        obtain ⟨a, ha, rfl⟩ := List.mem_map.mp hx
        exact (h a ha).2.1
      · rw [totalsOf_sspmax]
        refine List.sum_nonneg ?_
        intro x hx
        obtain ⟨a, ha, rfl⟩ := List.mem_map.mp hx
        exact (h a ha).2.2
    refine ⟨fun _ => ?_, fun h0 => absurd h0 hT, fun h => ?_⟩
    · field_simp
      ring
    · obtain ⟨ha, hb, hc⟩ := hnn h
      set A := (totalsOf acts).sscp
      set B := (totalsOf acts).ssw
      set C := (totalsOf acts).sspmax
      have hTpos : 0 < A + B + C := lt_of_le_of_ne (by linarith) (Ne.symm hT)
      refine ⟨by positivity, ?_, by positivity, ?_, by positivity, ?_⟩
      · rw [div_le_iff hTpos]
        nlinarith
      · rw [div_le_iff hTpos]
        nlinarith
      · rw [div_le_iff hTpos]
        nlinarith

theorem claim_C10_witness :
    (calculateEnergyBalance [actOn "0001-01-02" 1 2 3]).aerobic_pct +
        (calculateEnergyBalance [actOn "0001-01-02" 1 2 3]).glycolytic_pct +
        (calculateEnergyBalance [actOn "0001-01-02" 1 2 3]).neuromuscular_pct = 100 ∧
    0 ≤ (calculateEnergyBalance [actOn "0001-01-02" 1 2 3]).aerobic_pct := by
  have h := claim_C10 [actOn "0001-01-02" 1 2 3]
  have hts : (calculateEnergyBalance [actOn "0001-01-02" 1 2 3]).total_strain ≠ 0 := by
    norm_num [calculateEnergyBalance, Triple.add, Triple.zero, tripleOf, actOn]
  refine ⟨h.1 hts, (h.2.2 (by decide)).1⟩

/-- C7: for the decay recurrence with positive time constant `T` and
`α = e^(-1/T)`: starting from the zero state, one day of load `L` gives
fitness `L·(1−α)`; a constant daily load `L` for `n` days gives
`L·(1−α^n)`; and fitness converges to `L` as `n → ∞`. -/
theorem claim_C7 (T : ℕ) (hT : 0 < T) (L : ℝ) :
    pmcFold (Real.exp (-1 / (T : ℝ))) [L] =
      L * (1 - Real.exp (-1 / (T : ℝ))) ∧
    (∀ n : ℕ, pmcFold (Real.exp (-1 / (T : ℝ))) (List.replicate n L) =
      L * (1 - Real.exp (-1 / (T : ℝ)) ^ n)) ∧
    Filter.Tendsto
      (fun n : ℕ => pmcFold (Real.exp (-1 / (T : ℝ))) (List.replicate n L))
      Filter.atTop (nhds L) := by
  have hTpos : (0 : ℝ) < (T : ℝ) := by exact_mod_cast hT
  have hneg : -1 / (T : ℝ) < 0 := div_neg_of_neg_of_pos (by norm_num) hTpos
  have ha0 : 0 < Real.exp (-1 / (T : ℝ)) := Real.exp_pos _
  have ha1 : Real.exp (-1 / (T : ℝ)) < 1 := Real.exp_lt_one_iff.mpr hneg
  refine ⟨pmcFold_single _ L, fun n => pmcFold_replicate _ L n, ?_⟩
  have hpow := tendsto_pow_atTop_nhds_zero_of_lt_one ha0.le ha1
  have h1 : Filter.Tendsto
      (fun n : ℕ => L * (1 - Real.exp (-1 / (T : ℝ)) ^ n))
      Filter.atTop (nhds (L * (1 - 0))) :=
    (Filter.Tendsto.const_sub 1 hpow).const_mul L
  rw [sub_zero, mul_one] at h1
  exact h1.congr (fun n => (pmcFold_replicate _ L n).symm)

theorem claim_C7_witness :
    pmcFold (Real.exp (-1 / ((7 : ℕ) : ℝ))) [5] =
      5 * (1 - Real.exp (-1 / ((7 : ℕ) : ℝ))) :=
  (claim_C7 7 (by decide) 5).1

/-- C8: for a single spike day of positive load `L` followed by `n`
zero-load days, with `0 < atl_days < ctl_days`: there is an `n` after which
form (fitness − fatigue) is strictly positive, and fitness, fatigue and
form all tend to zero as `n → ∞`. -/
theorem claim_C8 (ctlDays atlDays : ℕ) (h0 : 0 < atlDays)
    (hlt : atlDays < ctlDays) (L : ℝ) (hL : 0 < L) :
    (∃ n : ℕ,
      0 < pmcFold (Real.exp (-1 / (ctlDays : ℝ))) (L :: List.replicate n 0) -
        pmcFold (Real.exp (-1 / (atlDays : ℝ))) (L :: List.replicate n 0)) ∧
    Filter.Tendsto (fun n : ℕ =>
      pmcFold (Real.exp (-1 / (ctlDays : ℝ))) (L :: List.replicate n 0))
      Filter.atTop (nhds 0) ∧
    Filter.Tendsto (fun n : ℕ =>
      pmcFold (Real.exp (-1 / (atlDays : ℝ))) (L :: List.replicate n 0))
      Filter.atTop (nhds 0) ∧
    Filter.Tendsto (fun n : ℕ =>
      pmcFold (Real.exp (-1 / (ctlDays : ℝ))) (L :: List.replicate n 0) -
        pmcFold (Real.exp (-1 / (atlDays : ℝ))) (L :: List.replicate n 0))
      Filter.atTop (nhds 0) := by
  set αf := Real.exp (-1 / (ctlDays : ℝ)) with hαfdef
  set αa := Real.exp (-1 / (atlDays : ℝ)) with hαadef
  have hc : (0 : ℝ) < (ctlDays : ℝ) := by
    have : 0 < ctlDays := by omega
    exact_mod_cast this
  have ha : (0 : ℝ) < (atlDays : ℝ) := by exact_mod_cast h0
  have hαf0 : 0 < αf := Real.exp_pos _
  have hαa0 : 0 < αa := Real.exp_pos _
  have hαf1 : αf < 1 :=
    Real.exp_lt_one_iff.mpr (div_neg_of_neg_of_pos (by norm_num) hc)
  have hαa1 : αa < 1 :=
    Real.exp_lt_one_iff.mpr (div_neg_of_neg_of_pos (by norm_num) ha)
  have hfa : αa < αf := by
    rw [hαfdef, hαadef]
    apply Real.exp_lt_exp.mpr
    rw [neg_div, neg_div, neg_lt_neg_iff]
    exact one_div_lt_one_div_of_lt ha (by exact_mod_cast hlt)
  have hpowf := tendsto_pow_atTop_nhds_zero_of_lt_one hαf0.le hαf1
  have hpowa := tendsto_pow_atTop_nhds_zero_of_lt_one hαa0.le hαa1
  have hfitlim : Filter.Tendsto
      (fun n : ℕ => pmcFold αf (L :: List.replicate n 0))
      Filter.atTop (nhds 0) := by
    have h1 := hpowf.const_mul (L * (1 - αf))
    rw [mul_zero] at h1
    exact h1.congr (fun n => (pmcFold_spike αf L n).symm)
  have hfatlim : Filter.Tendsto
      (fun n : ℕ => pmcFold αa (L :: List.replicate n 0))
      Filter.atTop (nhds 0) := by
    have h1 := hpowa.const_mul (L * (1 - αa))
    rw [mul_zero] at h1
    exact h1.congr (fun n => (pmcFold_spike αa L n).symm)
  have hsub := hfitlim.sub hfatlim
  rw [sub_zero] at hsub
  refine ⟨?_, hfitlim, hfatlim, hsub⟩
  set r := αa / αf with hrdef
  have hr0 : 0 ≤ r := div_nonneg hαa0.le hαf0.le
  have hr1 : r < 1 := (div_lt_one hαf0).mpr hfa
  have hc0 : 0 < L * (1 - αf) := mul_pos hL (by linarith)
  have htr : Filter.Tendsto (fun n : ℕ => L * (1 - αa) * r ^ n)
      Filter.atTop (nhds 0) := by
    have h2 := (tendsto_pow_atTop_nhds_zero_of_lt_one hr0 hr1).const_mul
      (L * (1 - αa))
    rwa [mul_zero] at h2
  have hev : ∀ᶠ n in Filter.atTop, L * (1 - αa) * r ^ n < L * (1 - αf) :=
    htr.eventually (eventually_lt_nhds hc0)
  obtain ⟨n, hn⟩ := hev.exists
  refine ⟨n, ?_⟩
  rw [pmcFold_spike, pmcFold_spike]
  have hαfn : 0 < αf ^ n := pow_pos hαf0 n
  have heq : L * (1 - αa) * αa ^ n = L * (1 - αa) * r ^ n * αf ^ n := by
    rw [hrdef, div_pow]
    field_simp
  have h3 : L * (1 - αa) * r ^ n * αf ^ n < L * (1 - αf) * αf ^ n :=
    mul_lt_mul_of_pos_right hn hαfn
  linarith

theorem claim_C8_witness :
    ∃ n : ℕ,
      0 < pmcFold (Real.exp (-1 / ((42 : ℕ) : ℝ))) (1 :: List.replicate n 0) -
        pmcFold (Real.exp (-1 / ((7 : ℕ) : ℝ))) (1 :: List.replicate n 0) :=
  (claim_C8 42 7 (by decide) (by decide) 1 (by norm_num)).1

/-- C6: on the three concrete activities, `_calculate_energy_balance`
returns aerobic 125.0, glycolytic 9.0, neuromuscular 2.5, total 136.5 and
aerobic percentage ≈ 91.58 (within 0.01); `_calculate_strain_pmc` with
`ctl_days = 42`, `atl_days = 7`, `as_of_date = 2024-01-03` consumes the
3-day series with the daily triples unchanged and returns strictly positive
fitness and fatigue for all three systems. -/
theorem claim_C6 :
    (calculateEnergyBalance c6acts).aerobic_total = 125 ∧
    (calculateEnergyBalance c6acts).glycolytic_total = 9 ∧
    (calculateEnergyBalance c6acts).neuromuscular_total = 5 / 2 ∧
    (calculateEnergyBalance c6acts).total_strain = 273 / 2 ∧
    |(calculateEnergyBalance c6acts).aerobic_pct - 4579 / 50| < 1 / 100 ∧
    seriesOf c6acts ⟨2024, 1, 3⟩ ⟨2024, 1, 1⟩ =
      [⟨45, 5 / 2, 4 / 5⟩, ⟨30, 5, 6 / 5⟩, ⟨50, 3 / 2, 1 / 2⟩] ∧
    (∃ r, calculateStrainPmc c6acts ⟨2024, 1, 3⟩ 42 7 = .ok r ∧
      0 < r.sscp.ctl ∧ 0 < r.sscp.atl ∧ 0 < r.ssw.ctl ∧ 0 < r.ssw.atl ∧
      0 < r.sspmax.ctl ∧ 0 < r.sspmax.atl) := by
  have htot : List.foldl (fun t a => t.add (tripleOf a)) Triple.zero c6acts =
      (⟨125, 9, 5 / 2⟩ : Triple) := by
    norm_num [c6acts, actOn, Triple.add, Triple.zero, tripleOf]
  have hB : calculateEnergyBalance c6acts =
      ⟨125 / (273 / 2) * 100, 9 / (273 / 2) * 100, (5 / 2) / (273 / 2) * 100,
        125, 9, 5 / 2, 273 / 2⟩ := by
    simp only [calculateEnergyBalance, htot]
    norm_num
  -- the series
  have hdl : dayList ⟨2024, 1, 3⟩ ⟨2024, 1, 1⟩ =
      [⟨2024, 1, 1⟩, ⟨2024, 1, 2⟩, ⟨2024, 1, 3⟩] := by decide
  have hp1 : parsedKey (actOn "2024-01-01" 45 (5 / 2) (4 / 5)) =
      some ⟨2024, 1, 1⟩ := by decide
  have hp2 : parsedKey (actOn "2024-01-02" 30 5 (6 / 5)) =
      some ⟨2024, 1, 2⟩ := by decide
  have hp3 : parsedKey (actOn "2024-01-03" 50 (3 / 2) (1 / 2)) =
      some ⟨2024, 1, 3⟩ := by decide
  have hser : seriesOf c6acts ⟨2024, 1, 3⟩ ⟨2024, 1, 1⟩ =
      [⟨45, 5 / 2, 4 / 5⟩, ⟨30, 5, 6 / 5⟩, ⟨50, 3 / 2, 1 / 2⟩] := by
    rw [seriesOf_eq_spec (by decide) (by decide) (by decide) (by decide), hdl]
    simp only [List.map_cons, List.map_nil]
    norm_num [c6acts, specDayLoad, hp1, hp2, hp3, Triple.add, Triple.zero,
      tripleOf_actOn]
  have hsucc := @calculateStrainPmc_success c6acts ⟨2024, 1, 3⟩
    (by simp [c6acts]) (by unfold wellFormedDates; decide) "2024-01-01"
    ⟨2024, 1, 1⟩ (by decide) (by decide) 42 7 (by decide) (by decide)
  have habs : |(125 / (273 / 2) * 100 : ℚ) - 4579 / 50| < 1 / 100 := by
    rw [abs_lt]
    constructor <;> norm_num
  -- positivity helper
  have key : ∀ dec : ℝ, 0 < dec → dec < 1 → ∀ q1 q2 q3 : ℚ,
      0 < q1 → 0 < q2 → 0 < q3 →
      0 < pmcFold dec [(q1 : ℝ), (q2 : ℝ), (q3 : ℝ)] := by
    intro dec h0 h1 q1 q2 q3 hq1 hq2 hq3
    refine foldl_sysStep_pos h0 h1 ?_ le_rfl (Or.inr ⟨(q1 : ℝ), ?_, ?_⟩)
    · intro l hl
      simp only [List.mem_cons, List.not_mem_nil, or_false] at hl
      rcases hl with rfl | rfl | rfl
      · exact_mod_cast hq1.le
      · exact_mod_cast hq2.le
      · exact_mod_cast hq3.le
    · simp
    · exact_mod_cast hq1
  have hcd0 : 0 < Real.exp (-1 / ((42 : ℕ) : ℝ)) := Real.exp_pos _
  have hcd1 : Real.exp (-1 / ((42 : ℕ) : ℝ)) < 1 := by
    refine Real.exp_lt_one_iff.mpr (div_neg_of_neg_of_pos (by norm_num) ?_)
    norm_num
  have had0 : 0 < Real.exp (-1 / ((7 : ℕ) : ℝ)) := Real.exp_pos _
  have had1 : Real.exp (-1 / ((7 : ℕ) : ℝ)) < 1 := by
    refine Real.exp_lt_one_iff.mpr (div_neg_of_neg_of_pos (by norm_num) ?_)
    norm_num
  refine ⟨by rw [hB], by rw [hB], by rw [hB], by rw [hB],
    by rw [hB]; exact habs, hser, ?_⟩
  refine ⟨_, hsucc, ?_, ?_, ?_, ?_, ?_, ?_⟩
  · have e := pmcLoop_sscp_ctl (Real.exp (-1 / ((42 : ℕ) : ℝ)))
      (Real.exp (-1 / ((7 : ℕ) : ℝ))) (seriesOf c6acts ⟨2024, 1, 3⟩ ⟨2024, 1, 1⟩)
    show 0 < (pmcLoop _ _ (seriesOf c6acts ⟨2024, 1, 3⟩ ⟨2024, 1, 1⟩)).sscp.ctl
    rw [e, hser]
    exact key _ hcd0 hcd1 45 30 50 (by norm_num) (by norm_num) (by norm_num)
  · have e := pmcLoop_sscp_atl (Real.exp (-1 / ((42 : ℕ) : ℝ)))
      (Real.exp (-1 / ((7 : ℕ) : ℝ))) (seriesOf c6acts ⟨2024, 1, 3⟩ ⟨2024, 1, 1⟩)
    show 0 < (pmcLoop _ _ (seriesOf c6acts ⟨2024, 1, 3⟩ ⟨2024, 1, 1⟩)).sscp.atl
    rw [e, hser]
    exact key _ had0 had1 45 30 50 (by norm_num) (by norm_num) (by norm_num)
  · have e := pmcLoop_ssw_ctl (Real.exp (-1 / ((42 : ℕ) : ℝ)))
      (Real.exp (-1 / ((7 : ℕ) : ℝ))) (seriesOf c6acts ⟨2024, 1, 3⟩ ⟨2024, 1, 1⟩)
    show 0 < (pmcLoop _ _ (seriesOf c6acts ⟨2024, 1, 3⟩ ⟨2024, 1, 1⟩)).ssw.ctl
    rw [e, hser]
    exact key _ hcd0 hcd1 (5 / 2) 5 (3 / 2) (by norm_num) (by norm_num) (by norm_num)
  · have e := pmcLoop_ssw_atl (Real.exp (-1 / ((42 : ℕ) : ℝ)))
      (Real.exp (-1 / ((7 : ℕ) : ℝ))) (seriesOf c6acts ⟨2024, 1, 3⟩ ⟨2024, 1, 1⟩)
    show 0 < (pmcLoop _ _ (seriesOf c6acts ⟨2024, 1, 3⟩ ⟨2024, 1, 1⟩)).ssw.atl
    rw [e, hser]
    exact key _ had0 had1 (5 / 2) 5 (3 / 2) (by norm_num) (by norm_num) (by norm_num)
  · have e := pmcLoop_sspmax_ctl (Real.exp (-1 / ((42 : ℕ) : ℝ)))
      (Real.exp (-1 / ((7 : ℕ) : ℝ))) (seriesOf c6acts ⟨2024, 1, 3⟩ ⟨2024, 1, 1⟩)
    show 0 < (pmcLoop _ _ (seriesOf c6acts ⟨2024, 1, 3⟩ ⟨2024, 1, 1⟩)).sspmax.ctl
    rw [e, hser]
    exact key _ hcd0 hcd1 (4 / 5) (6 / 5) (1 / 2) (by norm_num) (by norm_num)
      (by norm_num)
  · have e := pmcLoop_sspmax_atl (Real.exp (-1 / ((42 : ℕ) : ℝ)))
      (Real.exp (-1 / ((7 : ℕ) : ℝ))) (seriesOf c6acts ⟨2024, 1, 3⟩ ⟨2024, 1, 1⟩)
    show 0 < (pmcLoop _ _ (seriesOf c6acts ⟨2024, 1, 3⟩ ⟨2024, 1, 1⟩)).sspmax.atl
    rw [e, hser]
    exact key _ had0 had1 (4 / 5) (6 / 5) (1 / 2) (by norm_num) (by norm_num)
      (by norm_num)

end IntervalsMcp
